import Mathlib

/-!
Verification development for the prediction aggregation & scoring engine of the
`infinite_games` validator.  The definitions below are shallow embeddings of

  * `neurons/deprecated_validator.py` — the settlement-time scoring hook
    `Validator.on_event_update`, the rate-limit gate at the end of
    `Validator.forward`, and the score normalization pipeline; and
  * `infinite_games/sandbox/validator/tasks/query_miners.py` — the dispatch
    task `QueryMiners` (`run`, `get_axons`, `get_interval_start_minutes`,
    `make_predictions_synapse`, `parse_neuron_predictions`,
    `store_predictions`).

Timestamps are modelled as integer minutes (or, for the rate limiter, integer
seconds) since the cluster epoch `CLUSTER_EPOCH_2024`; machine floats are
idealized as real numbers.  Python `//` and `%` on a positive divisor agree
with Lean's `Int` `/` and `%` (Euclidean = floor division for a positive
divisor), which is what the source relies on.
-/

open scoped Classical

/-! ## Interval clustering (IntervalClock)

`CLUSTERED_SUBMISSIONS_INTERVAL_MINUTES = 60 * 4` in
`query_miners.py`; `get_interval_start_minutes` computes
`minutes_since_epoch - minutes_since_epoch % CLUSTERED_SUBMISSIONS_INTERVAL_MINUTES`,
and the identical expression appears in `Validator.forward` and in
`Validator.on_event_update` for the cutoff / now / registration timestamps. -/

def CLUSTERED_SUBMISSIONS_INTERVAL_MINUTES : ℤ := 60 * 4

/-- Embedding of `QueryMiners.get_interval_start_minutes` (and of the inlined
copies in `deprecated_validator.py`), applied to a timestamp already converted
to whole minutes since `CLUSTER_EPOCH_2024`:
`minutes_since_epoch - (minutes_since_epoch % CLUSTERED_SUBMISSIONS_INTERVAL_MINUTES)`. -/
def intervalStartMinutes (minutesSinceEpoch : ℤ) : ℤ :=
  minutesSinceEpoch - minutesSinceEpoch % CLUSTERED_SUBMISSIONS_INTERVAL_MINUTES

/-! ## Scoring window (`Validator.on_event_update`, lines 244–268)

The code aligns the cutoff timestamp and the current time to their intervals,
takes the minimum as the effective finish, aligns the event's registration
date as the start, and divides the difference by the interval width. -/

/-- `effective_finish_start_minutes = min(cutoff_interval_start_minutes, now_interval_start_minutes)`. -/
def effective_finish_start_minutes (cutoffMinutes nowMinutes : ℤ) : ℤ :=
  min (intervalStartMinutes cutoffMinutes) (intervalStartMinutes nowMinutes)

/-- `start_interval_start_minutes`: the interval of the event's registration date. -/
def start_interval_start_minutes (registeredMinutes : ℤ) : ℤ :=
  intervalStartMinutes registeredMinutes

/-- `total_intervals = (effective_finish_start_minutes - start_interval_start_minutes) // CLUSTERED_SUBMISSIONS_INTERVAL_MINUTES`. -/
def total_intervals (cutoffMinutes nowMinutes registeredMinutes : ℤ) : ℤ :=
  (effective_finish_start_minutes cutoffMinutes nowMinutes
      - start_interval_start_minutes registeredMinutes)
    / CLUSTERED_SUBMISSIONS_INTERVAL_MINUTES

/-! ## Per-miner scoring (`Validator.on_event_update`, lines 275–368)

A miner's recorded submissions for one event are
`prediction_intervals : dict interval_start_minutes -> {"interval_agg_prediction": value}`
where the stored value itself may be `None`; we model the dict as an
association list `List (ℤ × Option ℝ)` (absent key and stored `None` both
surface as `none` through `lookupIntervalAggPrediction`, exactly like the
code's `.get(m, {"interval_agg_prediction": None})["interval_agg_prediction"]`). -/

/-- The miner's answer recorded for interval `m`:
`(prediction_intervals or {}).get(m, {"interval_agg_prediction": None})["interval_agg_prediction"]`. -/
def lookupIntervalAggPrediction (predictionIntervals : List (ℤ × Option ℝ)) (m : ℤ) :
    Option ℝ :=
  match predictionIntervals.lookup m with
  | none => none
  | some v => v

/-- The answer the scoring loop actually uses for interval `m`: the recorded
answer, overridden by `1/2` when `miner_reg_time > interval_end_date`
(the interval end is `m + CLUSTERED_SUBMISSIONS_INTERVAL_MINUTES` minutes
after the epoch). -/
noncomputable def answerUsed (minerRegMinutes m : ℤ)
    (predictionIntervals : List (ℤ × Option ℝ)) : Option ℝ :=
  if m + CLUSTERED_SUBMISSIONS_INTERVAL_MINUTES < minerRegMinutes then some (1 / 2)
  else lookupIntervalAggPrediction predictionIntervals m

/-- `ans = max(0, min(1, ans))` — clamp the answer to `[0, 1]`. -/
noncomputable def clampAnswer (a : ℝ) : ℝ := max 0 (min 1 a)

/-- `brier_score = 1 - ((ans - correct_ans) ** 2)`. -/
noncomputable def brierScorePart (correctAns a : ℝ) : ℝ := 1 - (a - correctAns) ^ 2

/-- One interval's term appended to `mk`: `0` when the answer is `None`
(the code does `mk.append(0); continue`), otherwise
`wk * (1 - ((clamped ans - correct_ans) ** 2))`. -/
noncomputable def mkContribution (correctAns w : ℝ) (ans : Option ℝ) : ℝ :=
  match ans with
  | none => 0
  | some a => w * brierScorePart correctAns (clampAnswer a)

/-- `first_n_intervals = 1`. -/
def firstNIntervals : ℤ := 1

/-- The exponential recency weight `wk` for the interval with 0-based index
`k`: `1` when `current_interval_no + 1 <= first_n_intervals`, else
`exp(-(total_intervals / (total_intervals - current_interval_no)) + 1)`
(float true division in the source). -/
noncomputable def intervalWeight (totalIntervalsCount : ℤ) (k : ℕ) : ℝ :=
  if (k : ℤ) + 1 ≤ firstNIntervals then 1
  else Real.exp (-((totalIntervalsCount : ℝ) / ((totalIntervalsCount : ℝ) - (k : ℝ))) + 1)

/-- The number of loop iterations of
`range(start_interval_start_minutes, effective_finish_start_minutes, 240)`;
both endpoints are interval-aligned in the source, so this equals
`total_intervals` (and is `0` when the window is empty). -/
def loopIntervalCount (startM finishM : ℤ) : ℕ :=
  ((finishM - startM) / CLUSTERED_SUBMISSIONS_INTERVAL_MINUTES).toNat

/-- The accumulated `weights_sum` of the general branch: the loop adds
`wk` for every interval of the window, whether or not an answer exists. -/
noncomputable def generalWeightsSum (startM finishM : ℤ) : ℝ :=
  ((List.range (loopIntervalCount startM finishM)).map (fun k =>
      intervalWeight ((finishM - startM) / CLUSTERED_SUBMISSIONS_INTERVAL_MINUTES) k)).sum

/-- The accumulated `sum(mk)` of the general branch: each interval
contributes `mkContribution` of the answer the loop uses for it. -/
noncomputable def generalMkSum (correctAns : ℝ) (startM finishM minerRegMinutes : ℤ)
    (predictionIntervals : List (ℤ × Option ℝ)) : ℝ :=
  ((List.range (loopIntervalCount startM finishM)).map (fun k =>
      mkContribution correctAns
        (intervalWeight ((finishM - startM) / CLUSTERED_SUBMISSIONS_INTERVAL_MINUTES) k)
        (answerUsed minerRegMinutes
          (startM + CLUSTERED_SUBMISSIONS_INTERVAL_MINUTES * (k : ℤ))
          predictionIntervals))).sum

/-- The general (non-instantaneous) scoring branch:
`final_avg_score = sum(mk) / weights_sum if weights_sum > 0 else 0`. -/
noncomputable def generalBranchScore (correctAns : ℝ) (startM finishM minerRegMinutes : ℤ)
    (predictionIntervals : List (ℤ × Option ℝ)) : ℝ :=
  if 0 < generalWeightsSum startM finishM then
    generalMkSum correctAns startM finishM minerRegMinutes predictionIntervals
      / generalWeightsSum startM finishM
  else 0

/-- The general branch including the silence penalty: a miner registered
before the event was streamed (`miner_reg_time < pe.registered_date`) with no
recorded submissions scores `0` outright. -/
noncomputable def generalMinerScore (correctAns : ℝ)
    (registeredMinutes startM finishM minerRegMinutes : ℤ)
    (predictionIntervals : List (ℤ × Option ℝ)) : ℝ :=
  if minerRegMinutes < registeredMinutes ∧ predictionIntervals.isEmpty then 0
  else generalBranchScore correctAns startM finishM minerRegMinutes predictionIntervals

/-- The maximum key of a miner's (nonempty) prediction dict:
`max(prediction_intervals.keys())`; `0` for the empty list (unreachable in
the source, which guards on emptiness first). -/
def maxIntervalKey : List (ℤ × Option ℝ) → ℤ
  | [] => 0
  | p :: ps => ps.foldl (fun acc q => max acc q.1) p.1

/-- The `azuro` (instantaneous) branch of `on_event_update`:
miners registered at/after the cutoff answer `1/2`; miners registered before
the cutoff with no recorded intervals score `0`; otherwise the code takes the
answer stored under the literal dict key `0` if present
(`if 0 in prediction_intervals`), else the answer at the maximum key; a
stored `None` answer scores `0`; otherwise the raw clamped Brier-complement
is the sole score, with no decay weighting. -/
noncomputable def azuroMinerScore (correctAns : ℝ) (cutoffMinutes minerRegMinutes : ℤ)
    (predictionIntervals : List (ℤ × Option ℝ)) : ℝ :=
  if cutoffMinutes ≤ minerRegMinutes then
    brierScorePart correctAns (clampAnswer (1 / 2))
  else if predictionIntervals.isEmpty then 0
  else
    let ans : Option ℝ :=
      match predictionIntervals.lookup 0 with
      | some v => v
      | none =>
          lookupIntervalAggPrediction predictionIntervals (maxIntervalKey predictionIntervals)
    match ans with
    | none => 0
    | some a => brierScorePart correctAns (clampAnswer a)

/-- Modelled from the spec (claim C3's reading): the score an instantaneous
event should assign — the Brier-complement of the *first interval of the
scoring window*'s answer, falling back to the latest available interval's
answer when the first interval's answer is missing. -/
noncomputable def azuroMinerScoreSpec (correctAns : ℝ) (windowStartM : ℤ)
    (predictionIntervals : List (ℤ × Option ℝ)) : ℝ :=
  let ans : Option ℝ :=
    match predictionIntervals.lookup windowStartM with
    | some v => v
    | none =>
        lookupIntervalAggPrediction predictionIntervals (maxIntervalKey predictionIntervals)
  match ans with
  | none => 0
  | some a => brierScorePart correctAns (clampAnswer a)

/-- Per-miner dispatch on `market_type` of `on_event_update`'s scoring loop. -/
noncomputable def settledMinerScore (marketType : String) (correctAns : ℝ)
    (cutoffMinutes registeredMinutes startM finishM minerRegMinutes : ℤ)
    (predictionIntervals : List (ℤ × Option ℝ)) : ℝ :=
  if marketType = "azuro" then
    azuroMinerScore correctAns cutoffMinutes minerRegMinutes predictionIntervals
  else
    generalMinerScore correctAns registeredMinutes startM finishM minerRegMinutes
      predictionIntervals

/-! ## Cross-miner normalization (`Validator.on_event_update`, lines 374–389)

`alpha = 0`, `beta = 1`; if not all scores are `≤ 0`, entries `≠ 0` become
`alpha * s + beta * exp(30 * s)`; then `torch.nn.functional.normalize(_, p=1)`
divides by `max(l1norm, eps)` — idealized over ℝ as division by the l1 norm
when it is nonzero (when the norm is zero the vector is the zero vector and
division leaves it unchanged). -/

def sharpenAlpha : ℝ := 0

def sharpenBeta : ℝ := 1

/-- The sharpening step: skipped when every raw score is `≤ 0`; otherwise the
non-zero entries become `alpha * s + beta * exp(30 * s)`. -/
noncomputable def sharpenScores (scores : List ℝ) : List ℝ :=
  if ∀ s ∈ scores, s ≤ 0 then scores
  else scores.map (fun s =>
    if s = 0 then s else sharpenAlpha * s + sharpenBeta * Real.exp (30 * s))

/-- `torch.nn.functional.normalize(scores, p=1, dim=0)` idealized over ℝ. -/
noncomputable def l1Normalize (scores : List ℝ) : List ℝ :=
  let n := (scores.map (fun x => |x|)).sum
  if n = 0 then scores else scores.map (fun x => x / n)

/-- The full normalization pipeline applied to the per-event raw score vector. -/
noncomputable def normalizeEventScores (scores : List ℝ) : List ℝ :=
  l1Normalize (sharpenScores scores)

/-! ## Settlement hook control flow (`Validator.on_event_update`)

The hook's docstring: "Event removed when we return True".  Its observable
boundary is the returned boolean, whether `event_provider.remove_event` was
called, and whether the scoring path actually ran; we record all three. -/

inductive EventStatus where
  | pending
  | settled
  | discarded
deriving DecidableEq

structure OnEventUpdateResult where
  removeFromRegistry : Bool
  calledRemoveEvent : Bool
  scored : Bool
deriving DecidableEq

/-- Control-flow embedding of `Validator.on_event_update` (lines 213–405):
a `SETTLED` event with `answer is None` logs "Unknown answer for event,
discarding" and returns `True`; a settled event with no predictions logs
"No predictions ... skipping" and returns `True`; otherwise the scoring path
runs to completion and returns `True`.  A `DISCARDED` event has
`remove_event` called on it and then falls through to `return False`.  Any
other status falls through to `return False`. -/
def onEventUpdate (status : EventStatus) (answer : Option ℝ) (hasPredictions : Bool) :
    OnEventUpdateResult :=
  match status with
  | .settled =>
    match answer with
    | none => ⟨true, false, false⟩
    | some _ =>
      if hasPredictions then ⟨true, false, true⟩
      else ⟨true, false, false⟩
  | .discarded => ⟨false, true, false⟩
  | .pending => ⟨false, false, false⟩

/-! ## Rate limiting (`Validator.forward`, lines 619–635)

`MIN_TIME_BETWEEN_QUERY_MINERS = 300` seconds.  `forward` issues its network
query near its start; at its end it computes
`since_last_query = time.time() - self.last_query_time`, sleeps
`MIN_TIME_BETWEEN_QUERY_MINERS - since_last_query` when that elapsed time is
too small, and finally sets `last_query_time` to the current time
(after the sleep).  We model a round by the wall-clock time at which the
query is issued and the time at which `forward` returns; the stored
`last_query_time` after the round equals the return time. -/

def MIN_TIME_BETWEEN_QUERY_MINERS : ℤ := 300

structure ForwardTiming where
  queryTime : ℤ
  returnTime : ℤ
deriving DecidableEq

/-- Timing of one `forward` round: triggered at `now` with stored
`lastQueryTime`, the query goes out at `now`; processing takes
`processing ≥ 0`; the end-of-round gate sleeps out the remainder of the
minimum delay before returning. -/
def forwardRoundTiming (lastQueryTime now processing : ℤ) : ForwardTiming :=
  let afterProcessing := now + processing
  if afterProcessing - lastQueryTime < MIN_TIME_BETWEEN_QUERY_MINERS then
    ⟨now, lastQueryTime + MIN_TIME_BETWEEN_QUERY_MINERS⟩
  else
    ⟨now, afterProcessing⟩

/-! ## Dispatch round (`QueryMiners` in `query_miners.py`)

A stored prediction row models the tuple built in
`parse_neuron_predictions`:
`(unique_event_id, axon_hotkey, uid, answer, interval_start_minutes, answer, block, answer)`
(the answer occupies three columns of the insert tuple; we keep it once). -/

structure PredictionRow where
  uniqueEventId : String
  minerHotkey : String
  minerUid : ℕ
  answer : Option ℝ
  intervalStart : ℤ
  blockHeight : ℕ

/-- `QueryMiners.parse_neuron_predictions`: one row per entry of the
response synapse's `events` dict (modelled as an association list
`unique_event_id -> probability`), with the answer taken from the entry's
`"probability"` field. -/
def parseNeuronPredictions (hotkeyOf : ℕ → String) (blockHeight : ℕ) (intervalStart : ℤ)
    (uid : ℕ) (events : List (String × Option ℝ)) : List PredictionRow :=
  events.map (fun e => ⟨e.1, hotkeyOf uid, uid, e.2, intervalStart, blockHeight⟩)

/-- `QueryMiners.store_predictions`: parse and batch-upsert each responding
neuron's predictions; we collect every row handed to
`db_operations.upsert_predictions`. -/
def storePredictions (hotkeyOf : ℕ → String) (blockHeight : ℕ) (intervalStart : ℤ)
    (neuronsPredictions : List (ℕ × List (String × Option ℝ))) : List PredictionRow :=
  neuronsPredictions.flatMap (fun r =>
    parseNeuronPredictions hotkeyOf blockHeight intervalStart r.1 r.2)

/-- An event row as consumed by `make_predictions_synapse` (only the fields
the modelled claims inspect: the id and the market type forming the dict
key `f"{market_type}-{event_id}"`). -/
structure EventRow where
  eventId : String
  marketType : String

/-- Dict insertion: a later entry with the same key overwrites the earlier
one (Python dict assignment `compiled_events[key] = {...}`). -/
def dictInsert (acc : List (String × Option ℝ)) (k : String) (v : Option ℝ) :
    List (String × Option ℝ) :=
  if acc.any (fun p => p.1 == k) then
    acc.map (fun p => if p.1 == k then (k, v) else p)
  else acc ++ [(k, v)]

/-- `QueryMiners.make_predictions_synapse`: every event is compiled into a
dict entry keyed `market_type ++ "-" ++ event_id` whose `"probability"`
field is initialized to `None` (we model only that field; `miner_answered`
starts `False` and the metadata fields are copied through). -/
def makePredictionsSynapse (events : List EventRow) : List (String × Option ℝ) :=
  events.foldl (fun acc e => dictInsert acc (e.marketType ++ "-" ++ e.eventId) none) []

structure AxonData where
  isServing : Bool

/-- `QueryMiners.get_axons`: the uids whose axon exists
(`axon is not None`) and has `is_serving is True`. -/
def getAxons (uids : List ℕ) (axons : ℕ → Option AxonData) : List (ℕ × AxonData) :=
  uids.filterMap (fun uid =>
    match axons uid with
    | some a => if a.isServing then some (uid, a) else none
    | none => none)

/-- The observable boundary of one `QueryMiners.run` invocation: whether the
metagraph was synced, which uids were queried, and which rows were written. -/
structure QueryMinersRunResult where
  syncedMetagraph : Bool
  queriedUids : List ℕ
  insertedRows : List PredictionRow

/-- `QueryMiners.run`: returns immediately when there are no events to
predict (before syncing the metagraph); otherwise builds the synapse, syncs,
filters the serving axons, returns if none serve, and otherwise queries
those axons (`reply` is the network oracle giving each queried uid's
response synapse events) and stores the parsed predictions under the
current aligned interval. -/
def queryMinersRun (events : List EventRow) (uids : List ℕ) (axons : ℕ → Option AxonData)
    (blockHeight : ℕ) (nowMinutes : ℤ) (hotkeyOf : ℕ → String)
    (reply : ℕ → List (String × Option ℝ)) : QueryMinersRunResult :=
  if events.isEmpty then ⟨false, [], []⟩
  else
    let axonsByUid := getAxons uids axons
    if axonsByUid.isEmpty then ⟨true, [], []⟩
    else
      let interval := intervalStartMinutes nowMinutes
      let responses := axonsByUid.map (fun p => (p.1, reply p.1))
      ⟨true, axonsByUid.map (fun p => p.1),
        storePredictions hotkeyOf blockHeight interval responses⟩

/-! ## Theorems -/

lemma intervalStartMinutes_eq_mul (t : ℤ) :
    intervalStartMinutes t =
      CLUSTERED_SUBMISSIONS_INTERVAL_MINUTES * (t / CLUSTERED_SUBMISSIONS_INTERVAL_MINUTES) := by
  have h := Int.emod_def t CLUSTERED_SUBMISSIONS_INTERVAL_MINUTES
  unfold intervalStartMinutes
  omega

lemma intervalStartMinutes_mono : Monotone intervalStartMinutes := by
  intro a b hab
  rw [intervalStartMinutes_eq_mul a, intervalStartMinutes_eq_mul b]
  have : a / CLUSTERED_SUBMISSIONS_INTERVAL_MINUTES ≤ b / CLUSTERED_SUBMISSIONS_INTERVAL_MINUTES :=
    Int.ediv_le_ediv (by norm_num [CLUSTERED_SUBMISSIONS_INTERVAL_MINUTES]) hab
  have hw : (0:ℤ) < CLUSTERED_SUBMISSIONS_INTERVAL_MINUTES := by
    norm_num [CLUSTERED_SUBMISSIONS_INTERVAL_MINUTES]
  nlinarith

lemma intervalStartMinutes_le (t : ℤ) : intervalStartMinutes t ≤ t := by
  have h : 0 ≤ t % CLUSTERED_SUBMISSIONS_INTERVAL_MINUTES :=
    Int.emod_nonneg t (by norm_num [CLUSTERED_SUBMISSIONS_INTERVAL_MINUTES])
  unfold intervalStartMinutes
  omega

lemma lt_intervalStartMinutes_add (t : ℤ) :
    t < intervalStartMinutes t + CLUSTERED_SUBMISSIONS_INTERVAL_MINUTES := by
  have h : t % CLUSTERED_SUBMISSIONS_INTERVAL_MINUTES < CLUSTERED_SUBMISSIONS_INTERVAL_MINUTES :=
    Int.emod_lt_of_pos t (by norm_num [CLUSTERED_SUBMISSIONS_INTERVAL_MINUTES])
  unfold intervalStartMinutes
  omega

/-- Claim C5: for all timestamps `t` in minutes since the cluster epoch, the
interval-alignment function is idempotent and satisfies
`intervalStart(t) ≤ t < intervalStart(t) + 240`, so every timestamp maps to
exactly one interval. -/
theorem intervalStartMinutes_idempotent_and_bounds (t : ℤ) :
    intervalStartMinutes (intervalStartMinutes t) = intervalStartMinutes t
      ∧ intervalStartMinutes t ≤ t
      ∧ t < intervalStartMinutes t + 240 := by
  refine ⟨?_, intervalStartMinutes_le t, ?_⟩
  · rw [intervalStartMinutes_eq_mul t]
    unfold intervalStartMinutes
    rw [Int.mul_emod_right]
    ring
  · have h := lt_intervalStartMinutes_add t
    simpa [CLUSTERED_SUBMISSIONS_INTERVAL_MINUTES] using h

/-- Claim C4: the scoring window of a settled event is
`[startInterval, endInterval)` with `endInterval` the interval of
`min(cutoff, now)` (the code's `min` of the two aligned values commutes with
alignment), `totalIntervals` is `(endInterval − startInterval) / 240`, and
every interval enumerated by the scoring loop lies inside the window, so
scoring never extends past the earlier of submissions-closed or current time. -/
theorem scoring_window_correct (cutoffMinutes nowMinutes registeredMinutes : ℤ) :
    effective_finish_start_minutes cutoffMinutes nowMinutes
        = intervalStartMinutes (min cutoffMinutes nowMinutes)
      ∧ total_intervals cutoffMinutes nowMinutes registeredMinutes
        = (effective_finish_start_minutes cutoffMinutes nowMinutes
            - start_interval_start_minutes registeredMinutes) / 240
      ∧ ∀ k : ℕ, (k : ℤ) < total_intervals cutoffMinutes nowMinutes registeredMinutes →
          start_interval_start_minutes registeredMinutes
            ≤ start_interval_start_minutes registeredMinutes
                + CLUSTERED_SUBMISSIONS_INTERVAL_MINUTES * k
          ∧ start_interval_start_minutes registeredMinutes
                + CLUSTERED_SUBMISSIONS_INTERVAL_MINUTES * k
            < effective_finish_start_minutes cutoffMinutes nowMinutes := by
  refine ⟨?_, rfl, ?_⟩
  · rcases le_total cutoffMinutes nowMinutes with h | h
    · rw [min_eq_left h]
      exact (min_eq_left (intervalStartMinutes_mono h)).symm ▸ rfl
    · rw [min_eq_right h]
      unfold effective_finish_start_minutes
      rw [min_eq_right (intervalStartMinutes_mono h)]
  · intro k hk
    set s := start_interval_start_minutes registeredMinutes with hs
    set f := effective_finish_start_minutes cutoffMinutes nowMinutes with hf
    have hdvd : CLUSTERED_SUBMISSIONS_INTERVAL_MINUTES ∣ f - s := by
      have h1 : CLUSTERED_SUBMISSIONS_INTERVAL_MINUTES ∣ f := by
        rw [hf]
        unfold effective_finish_start_minutes
        rcases min_cases (intervalStartMinutes cutoffMinutes)
          (intervalStartMinutes nowMinutes) with ⟨hmin, _⟩ | ⟨hmin, _⟩ <;>
          rw [hmin, intervalStartMinutes_eq_mul] <;> exact Dvd.intro _ rfl
      have h2 : CLUSTERED_SUBMISSIONS_INTERVAL_MINUTES ∣ s := by
        rw [hs]
        unfold start_interval_start_minutes
        rw [intervalStartMinutes_eq_mul]
        exact Dvd.intro _ rfl
      exact dvd_sub h1 h2
    obtain ⟨q, hq⟩ := hdvd
    have hT : total_intervals cutoffMinutes nowMinutes registeredMinutes = q := by
      unfold total_intervals
      rw [← hf, ← hs, hq]
      rw [Int.mul_ediv_cancel_left _ (by norm_num [CLUSTERED_SUBMISSIONS_INTERVAL_MINUTES])]
    rw [hT] at hk
    constructor
    · have hk0 : (0:ℤ) ≤ (k:ℤ) := Int.ofNat_nonneg k
      have : (0:ℤ) ≤ CLUSTERED_SUBMISSIONS_INTERVAL_MINUTES * k := by
        have hw : (0:ℤ) ≤ CLUSTERED_SUBMISSIONS_INTERVAL_MINUTES := by
          norm_num [CLUSTERED_SUBMISSIONS_INTERVAL_MINUTES]
        exact mul_nonneg hw hk0
      omega
    · have hw : CLUSTERED_SUBMISSIONS_INTERVAL_MINUTES = 240 := by
        norm_num [CLUSTERED_SUBMISSIONS_INTERVAL_MINUTES]
      rw [hw] at hq ⊢
      omega

/-- Witness for C4 at concrete inputs: cutoff minute 1000, now minute 2000,
registration minute 0; the effective finish is the interval of `min`, and the
interval with index 1 lies inside the window `[0, 960)`. -/
theorem scoring_window_correct_witness :
    effective_finish_start_minutes 1000 2000 = intervalStartMinutes (min 1000 2000)
      ∧ (start_interval_start_minutes 0 ≤ start_interval_start_minutes 0
            + CLUSTERED_SUBMISSIONS_INTERVAL_MINUTES * (1 : ℕ)
          ∧ start_interval_start_minutes 0
              + CLUSTERED_SUBMISSIONS_INTERVAL_MINUTES * (1 : ℕ)
            < effective_finish_start_minutes 1000 2000) := by
  refine ⟨(scoring_window_correct 1000 2000 0).1, ?_⟩
  exact (scoring_window_correct 1000 2000 0).2.2 1 (by decide)

/-! ## Claim C2 — settlement hook return value -/

/-- Counterexample to claim C2: the hook returns `false` for a discarded
event (after itself removing it from the registry), and returns `true` —
not `false` — both when a settled event has no ground truth and when a
settled event has no submissions to score, so none of the claim's retry
cases hold. -/
theorem onEventUpdate_claim_false :
    (onEventUpdate .discarded none false).removeFromRegistry = false
      ∧ (onEventUpdate .settled none true).removeFromRegistry = true
      ∧ (onEventUpdate .settled (some 1) false).removeFromRegistry = true :=
  ⟨rfl, rfl, rfl⟩

/-- Claim C2 (amended): the hook returns `true` exactly for settled events —
including a settled event with no ground truth (logged as discarded) and a
settled event with no submissions (skipped), neither of which is retried; it
returns `false` for a discarded event, which it has already removed from the
registry itself via `remove_event`, and for events in any other state; the
scoring path runs exactly when the event is settled with a ground truth and
at least one recorded submission. -/
theorem onEventUpdate_amended (status : EventStatus) (answer : Option ℝ)
    (hasPredictions : Bool) :
    ((onEventUpdate status answer hasPredictions).removeFromRegistry = true
        ↔ status = .settled)
      ∧ ((onEventUpdate status answer hasPredictions).calledRemoveEvent = true
        ↔ status = .discarded)
      ∧ ((onEventUpdate status answer hasPredictions).scored = true
        ↔ (status = .settled ∧ answer.isSome = true ∧ hasPredictions = true)) := by
  cases status <;> cases answer <;> cases hasPredictions <;>
    simp [onEventUpdate]

/-! ## Claim C8 — rate limiting between dispatch rounds -/

/-- Counterexample to claim C8: a round triggered with no time elapsed since
the previous round (`last_query_time = 0`, trigger at time `0`) issues its
network query immediately at time `0` — strictly before the minimum delay of
300 has elapsed — and only waits at the end, returning at time `300`. -/
theorem forward_rate_limit_claim_false :
    (forwardRoundTiming 0 0 0).queryTime = 0
      ∧ (forwardRoundTiming 0 0 0).queryTime - 0 < MIN_TIME_BETWEEN_QUERY_MINERS
      ∧ (forwardRoundTiming 0 0 0).returnTime = MIN_TIME_BETWEEN_QUERY_MINERS := by
  refine ⟨rfl, by decide, by decide⟩

/-- Claim C8 (amended): successive rounds invoked back-to-back (each round
triggered at the stored `last_query_time`, the next at the previous round's
return) have their network queries separated by at least the minimum delay
of 300 time units, because each round sleeps out the remainder at its end,
just before returning control to its caller; the round's own network call is
issued immediately at trigger time, not after the wait. -/
theorem forward_rate_limit_amended (lastQueryTime d1 d2 : ℤ) (h1 : 0 ≤ d1) :
    (forwardRoundTiming lastQueryTime lastQueryTime d1).queryTime = lastQueryTime
      ∧ MIN_TIME_BETWEEN_QUERY_MINERS ≤
          (forwardRoundTiming
              (forwardRoundTiming lastQueryTime lastQueryTime d1).returnTime
              (forwardRoundTiming lastQueryTime lastQueryTime d1).returnTime
              d2).queryTime
            - (forwardRoundTiming lastQueryTime lastQueryTime d1).queryTime := by
  unfold forwardRoundTiming
  simp only [MIN_TIME_BETWEEN_QUERY_MINERS]
  split_ifs <;> simp <;> omega

/-- Witness for the amended C8 at concrete inputs: previous round finished at
time 5, both rounds process instantaneously; the two queries are 300 apart. -/
theorem forward_rate_limit_amended_witness :
    (forwardRoundTiming 5 5 0).queryTime = 5
      ∧ MIN_TIME_BETWEEN_QUERY_MINERS ≤
          (forwardRoundTiming (forwardRoundTiming 5 5 0).returnTime
              (forwardRoundTiming 5 5 0).returnTime 0).queryTime
            - (forwardRoundTiming 5 5 0).queryTime :=
  forward_rate_limit_amended 5 0 0 (by decide)

/-! ## Claim C1 — missing answers in the general branch -/

/-- Counterexample to claim C1: a one-interval window (`[0, 240)`) in which a
miner registered at minute 0 has no recorded answer yields score `0`, while
the claimed 0.5-default contribution for that interval (weight 1, ground
truth 1) would be `3/4`: an absent answer whose interval end is not before
the miner's registration contributes `0` — with the weight still counted in
the denominator — not the Brier-complement of 0.5. -/
theorem general_missing_answer_claim_false :
    generalMinerScore 1 0 0 240 0 [] = 0
      ∧ mkContribution 1 1 (some (1 / 2)) = 3 / 4
      ∧ (0 : ℝ) ≠ 3 / 4 := by
  refine ⟨?_, ?_, by norm_num⟩
  · have hT : loopIntervalCount 0 240 = 1 := by
      norm_num [loopIntervalCount, CLUSTERED_SUBMISSIONS_INTERVAL_MINUTES]
    have hw : generalWeightsSum 0 240 = 1 := by
      norm_num [generalWeightsSum, hT, List.range_succ, intervalWeight, firstNIntervals]
    have hm : generalMkSum 1 0 240 0 [] = 0 := by
      norm_num [generalMkSum, hT, List.range_succ, answerUsed,
        CLUSTERED_SUBMISSIONS_INTERVAL_MINUTES, lookupIntervalAggPrediction,
        List.lookup, mkContribution]
    norm_num [generalMinerScore, generalBranchScore, hw, hm]
  · norm_num [mkContribution, brierScorePart, clampAnswer]

/-- Claim C1 (amended): in the general scoring branch, an interval in which
the peer has no recorded answer contributes `0` to the weighted sum (while
the interval's weight still enters the denominator), *unless* the peer's
registration postdates the interval's end, in which case the answer `0.5` is
used and the interval contributes its weight times `1 − (0.5 − y)²`; the two
cases do not coincide in general. -/
theorem general_missing_answer_amended (correctAns w : ℝ)
    (minerRegMinutes m : ℤ) (predictionIntervals : List (ℤ × Option ℝ)) :
    (lookupIntervalAggPrediction predictionIntervals m = none →
        minerRegMinutes ≤ m + CLUSTERED_SUBMISSIONS_INTERVAL_MINUTES →
        mkContribution correctAns w
          (answerUsed minerRegMinutes m predictionIntervals) = 0)
      ∧ (m + CLUSTERED_SUBMISSIONS_INTERVAL_MINUTES < minerRegMinutes →
        mkContribution correctAns w
          (answerUsed minerRegMinutes m predictionIntervals)
          = w * (1 - (1 / 2 - correctAns) ^ 2)) := by
  constructor
  · intro hnone hreg
    rw [answerUsed, if_neg (by omega), hnone]
    rfl
  · intro hreg
    rw [answerUsed, if_pos hreg]
    show w * brierScorePart correctAns (clampAnswer (1 / 2)) = _
    have hclamp : clampAnswer (1 / 2) = 1 / 2 := by
      rw [clampAnswer]
      rw [min_eq_right (by norm_num), max_eq_right (by norm_num)]
    rw [hclamp, brierScorePart]

/-- Witness for the amended C1 at concrete inputs: with ground truth 1, a
missing answer in interval `[0, 240)` contributes `0` for a miner registered
at minute 0, and contributes `2 · (1 − (1/2 − 1)²)` (weight 2) for a miner
registered at minute 1000 (after the interval's end). -/
theorem general_missing_answer_amended_witness :
    mkContribution 1 1 (answerUsed 0 0 []) = 0
      ∧ mkContribution 1 2 (answerUsed 1000 0 [])
        = 2 * (1 - (1 / 2 - 1) ^ 2) := by
  constructor
  · exact (general_missing_answer_amended 1 1 0 0 []).1 rfl
      (by norm_num [CLUSTERED_SUBMISSIONS_INTERVAL_MINUTES])
  · exact (general_missing_answer_amended 1 2 1000 0 []).2
      (by norm_num [CLUSTERED_SUBMISSIONS_INTERVAL_MINUTES])

/-! ## Claim C3 — the instantaneous (`azuro`) branch -/

/-- Counterexample to claim C3: a miner registered before the cutoff with
answers in both intervals of a window starting at minute 240 (answer `1` in
the window's first interval 240, answer `0` in interval 480, ground truth 1)
scores `0`, because the code checks the literal dict key `0` — the
epoch-anchored first interval — not the window's first interval, and so
falls back to the latest interval's answer `0`; the claim's reading (first
interval of the scoring window, fallback to latest) would score `1`. -/
theorem azuro_first_interval_claim_false :
    azuroMinerScore 1 1000 0 [(240, some 1), (480, some 0)] = 0
      ∧ azuroMinerScoreSpec 1 240 [(240, some 1), (480, some 0)] = 1
      ∧ (0 : ℝ) ≠ 1 := by
  refine ⟨?_, ?_, by norm_num⟩
  · have hlook : ([(240, some 1), (480, some (0:ℝ))].lookup (0:ℤ)) = none := by
      simp [List.lookup]
    have hmax : maxIntervalKey [(240, some 1), (480, some (0:ℝ))] = 480 := by
      norm_num [maxIntervalKey]
    rw [azuroMinerScore, if_neg (by omega)]
    rw [if_neg (by simp)]
    rw [hlook, hmax]
    have : lookupIntervalAggPrediction [(240, some 1), (480, some (0:ℝ))] 480
        = some 0 := by
      simp [lookupIntervalAggPrediction, List.lookup]
    rw [this]
    show brierScorePart 1 (clampAnswer 0) = 0
    norm_num [brierScorePart, clampAnswer]
  · have hlook : ([(240, some 1), (480, some (0:ℝ))].lookup (240:ℤ))
        = some (some 1) := by
      simp [List.lookup]
    rw [azuroMinerScoreSpec]
    rw [hlook]
    show brierScorePart 1 (clampAnswer 1) = 1
    norm_num [brierScorePart, clampAnswer]

/-- Claim C3 (amended): for a settled `azuro` event and a peer registered
before the cutoff with at least one recorded interval answer, the score is
the raw Brier-complement (answer clamped to `[0, 1]`, no decay weighting) of
the answer stored under the literal interval key `0` — the epoch's first
interval, not the scoring window's — when that key is present, and otherwise
of the answer at the latest (maximum-key) available interval. -/
theorem azuro_score_amended (correctAns : ℝ) (cutoffMinutes minerRegMinutes : ℤ)
    (predictionIntervals : List (ℤ × Option ℝ))
    (h1 : minerRegMinutes < cutoffMinutes)
    (h2 : predictionIntervals.isEmpty = false) :
    (∀ v : ℝ, predictionIntervals.lookup 0 = some (some v) →
        azuroMinerScore correctAns cutoffMinutes minerRegMinutes predictionIntervals
          = brierScorePart correctAns (clampAnswer v))
      ∧ (predictionIntervals.lookup 0 = none →
        ∀ v : ℝ,
          lookupIntervalAggPrediction predictionIntervals
              (maxIntervalKey predictionIntervals) = some v →
          azuroMinerScore correctAns cutoffMinutes minerRegMinutes predictionIntervals
            = brierScorePart correctAns (clampAnswer v)) := by
  constructor
  · intro v hv
    rw [azuroMinerScore, if_neg (by omega), if_neg (by simp [h2]), hv]
  · intro hnone v hv
    rw [azuroMinerScore, if_neg (by omega), if_neg (by simp [h2]), hnone, hv]

/-- Witness for the amended C3 at concrete inputs: ground truth 1, cutoff at
minute 1000, miner registered at minute 0, answers at intervals 240 and 480;
key `0` is absent, so the score is the Brier-complement of the clamped
answer `0` found at the maximum key 480. -/
theorem azuro_score_amended_witness :
    azuroMinerScore 1 1000 0 [(240, some 1), (480, some 0)]
      = brierScorePart 1 (clampAnswer 0) := by
  exact (azuro_score_amended 1 1000 0 [(240, some 1), (480, some 0)]
      (by omega) (by simp)).2 (by simp [List.lookup]) 0
    (by simp [lookupIntervalAggPrediction, maxIntervalKey, List.lookup])

/-! ## Claim C9 — the general-branch raw score lies in `[0, 1]` -/

lemma clampAnswer_nonneg (a : ℝ) : 0 ≤ clampAnswer a := le_max_left 0 _

lemma clampAnswer_le_one (a : ℝ) : clampAnswer a ≤ 1 :=
  max_le (by norm_num) (min_le_left 1 a)

lemma brierScorePart_bounds (y a : ℝ) (hy0 : 0 ≤ y) (hy1 : y ≤ 1)
    (ha0 : 0 ≤ a) (ha1 : a ≤ 1) :
    0 ≤ brierScorePart y a ∧ brierScorePart y a ≤ 1 := by
  unfold brierScorePart
  constructor
  · nlinarith [mul_nonneg (by linarith : (0:ℝ) ≤ 1 - a + y)
      (by linarith : (0:ℝ) ≤ 1 + a - y)]
  · nlinarith [sq_nonneg (a - y)]

lemma intervalWeight_pos (totalIntervalsCount : ℤ) (k : ℕ) :
    0 < intervalWeight totalIntervalsCount k := by
  unfold intervalWeight
  split_ifs
  · norm_num
  · exact Real.exp_pos _

lemma intervalWeight_le_one (totalIntervalsCount : ℤ) (k : ℕ)
    (hk : (k : ℤ) < totalIntervalsCount) :
    intervalWeight totalIntervalsCount k ≤ 1 := by
  unfold intervalWeight
  split_ifs with h
  · exact le_refl 1
  · have hk1 : (1 : ℤ) ≤ (k : ℤ) := by
      simp only [firstNIntervals] at h
      omega
    have hkR : (1 : ℝ) ≤ (k : ℝ) := by exact_mod_cast hk1
    have hTk : (0 : ℝ) < (totalIntervalsCount : ℝ) - (k : ℝ) := by
      have : (k : ℝ) < (totalIntervalsCount : ℝ) := by exact_mod_cast hk
      linarith
    have hle : (totalIntervalsCount : ℝ) - (k : ℝ) ≤ (totalIntervalsCount : ℝ) := by
      linarith
    have h1 : (1 : ℝ) ≤ (totalIntervalsCount : ℝ) / ((totalIntervalsCount : ℝ) - (k : ℝ)) :=
      (one_le_div hTk).mpr hle
    calc Real.exp (-((totalIntervalsCount : ℝ) / ((totalIntervalsCount : ℝ) - (k : ℝ))) + 1)
        ≤ Real.exp 0 := Real.exp_le_exp.mpr (by linarith)
      _ = 1 := Real.exp_zero

lemma mkContribution_bounds (y w : ℝ) (ans : Option ℝ)
    (hy0 : 0 ≤ y) (hy1 : y ≤ 1) (hw : 0 ≤ w) :
    0 ≤ mkContribution y w ans ∧ mkContribution y w ans ≤ w := by
  cases ans with
  | none => simpa [mkContribution] using hw
  | some a =>
    obtain ⟨hb0, hb1⟩ := brierScorePart_bounds y (clampAnswer a) hy0 hy1
      (clampAnswer_nonneg a) (clampAnswer_le_one a)
    unfold mkContribution
    constructor
    · exact mul_nonneg hw hb0
    · calc w * brierScorePart y (clampAnswer a) ≤ w * 1 :=
          mul_le_mul_of_nonneg_left hb1 hw
        _ = w := mul_one w

lemma generalBranchScore_bounds (correctAns : ℝ) (startM finishM minerRegMinutes : ℤ)
    (predictionIntervals : List (ℤ × Option ℝ))
    (hy0 : 0 ≤ correctAns) (hy1 : correctAns ≤ 1) :
    0 ≤ generalBranchScore correctAns startM finishM minerRegMinutes predictionIntervals
      ∧ generalBranchScore correctAns startM finishM minerRegMinutes predictionIntervals
        ≤ 1 := by
  have hm0 : 0 ≤ generalMkSum correctAns startM finishM minerRegMinutes
      predictionIntervals := by
    apply List.sum_nonneg
    intro x hx
    obtain ⟨k, _, rfl⟩ := List.mem_map.mp hx
    exact (mkContribution_bounds correctAns _ _ hy0 hy1
      (intervalWeight_pos _ k).le).1
  have hmw : generalMkSum correctAns startM finishM minerRegMinutes predictionIntervals
      ≤ generalWeightsSum startM finishM := by
    unfold generalMkSum generalWeightsSum
    apply List.sum_le_sum
    intro k _
    exact (mkContribution_bounds correctAns _ _ hy0 hy1
      (intervalWeight_pos _ k).le).2
  unfold generalBranchScore
  split_ifs with hw
  · exact ⟨div_nonneg hm0 hw.le, (div_le_one hw).mpr hmw⟩
  · norm_num

/-- Claim C9: in the general scoring branch, given a ground truth in
`[0, 1]`, every peer's raw score lies in `[0, 1]` — each interval's
(possibly 0.5-overridden) answer is clamped so its Brier-complement is in
`[0, 1]`, every weight is positive (and at most 1 for the loop's indices
`k < totalIntervals`), a missing answer contributes `0` while its weight
still enters the denominator, and a non-positive weight sum yields score
`0`. -/
theorem general_score_in_unit_interval (correctAns : ℝ)
    (registeredMinutes startM finishM minerRegMinutes : ℤ)
    (predictionIntervals : List (ℤ × Option ℝ))
    (hy0 : 0 ≤ correctAns) (hy1 : correctAns ≤ 1) :
    (0 ≤ generalMinerScore correctAns registeredMinutes startM finishM minerRegMinutes
          predictionIntervals
        ∧ generalMinerScore correctAns registeredMinutes startM finishM minerRegMinutes
          predictionIntervals ≤ 1)
      ∧ (∀ T : ℤ, ∀ k : ℕ, 0 < intervalWeight T k)
      ∧ (∀ T : ℤ, ∀ k : ℕ, (k : ℤ) < T → intervalWeight T k ≤ 1) := by
  refine ⟨?_, fun T k => intervalWeight_pos T k,
    fun T k hk => intervalWeight_le_one T k hk⟩
  unfold generalMinerScore
  split_ifs with hpre
  · norm_num
  · exact generalBranchScore_bounds correctAns startM finishM minerRegMinutes
      predictionIntervals hy0 hy1

/-- Witness for C9 at concrete inputs: ground truth `1/2`, a one-interval
window and a single recorded answer; the score lies in `[0, 1]`, the weight
of index 0 is positive, and the weight of index 0 with two total intervals
is at most 1. -/
theorem general_score_in_unit_interval_witness :
    (0 ≤ generalMinerScore (1 / 2) 0 0 240 0 [(0, some 1)]
        ∧ generalMinerScore (1 / 2) 0 0 240 0 [(0, some 1)] ≤ 1)
      ∧ 0 < intervalWeight 2 0 ∧ intervalWeight 2 1 ≤ 1 := by
  have h := general_score_in_unit_interval (1 / 2) 0 0 240 0 [(0, some 1)]
    (by norm_num) (by norm_num)
  exact ⟨h.1, h.2.1 2 0, h.2.2 2 1 (by norm_num)⟩

/-! ## Claim C6 — normalization of the per-event score vector -/

lemma sum_map_div (l : List ℝ) (n : ℝ) :
    (l.map (fun x => x / n)).sum = l.sum / n := by
  induction l with
  | nil => simp
  | cons a t ih => simp [ih, add_div]

lemma sum_map_abs_of_nonneg (l : List ℝ) (h : ∀ x ∈ l, 0 ≤ x) :
    (l.map (fun x => |x|)).sum = l.sum := by
  induction l with
  | nil => simp
  | cons a t ih =>
    simp only [List.map_cons, List.sum_cons]
    rw [abs_of_nonneg (h a (List.mem_cons_self a t)),
      ih (fun x hx => h x (List.mem_cons_of_mem a hx))]

/-- Each entry of the sharpened vector is nonnegative: zero entries stay
zero, non-zero entries become `0 * s + 1 * exp(30 * s) > 0`. -/
lemma sharpenScores_entry_nonneg (s : ℝ) :
    0 ≤ if s = 0 then s else sharpenAlpha * s + sharpenBeta * Real.exp (30 * s) := by
  split_ifs with h
  · simp [h]
  · simp only [sharpenAlpha, sharpenBeta]
    have := Real.exp_pos (30 * s)
    linarith

/-- Claim C6: for a settled event's vector of per-peer raw scores, if at
least one raw score is positive then the sharpened
(`exp(30·score)` on non-zero entries) and L1-normalized vector sums to `1`;
if every raw score is `0`, the normalized vector is all-zero. -/
theorem normalize_event_scores_correct (scores : List ℝ) :
    ((∃ s ∈ scores, 0 < s) → (normalizeEventScores scores).sum = 1)
      ∧ ((∀ s ∈ scores, s = 0) → ∀ x ∈ normalizeEventScores scores, x = 0) := by
  constructor
  · rintro ⟨s0, hs0mem, hs0pos⟩
    unfold normalizeEventScores sharpenScores
    rw [if_neg (by push_neg; exact ⟨s0, hs0mem, hs0pos⟩)]
    set f : ℝ → ℝ := fun s =>
      if s = 0 then s else sharpenAlpha * s + sharpenBeta * Real.exp (30 * s) with hf
    have hnonneg : ∀ x ∈ scores.map f, 0 ≤ x := by
      intro x hx
      obtain ⟨s, _, rfl⟩ := List.mem_map.mp hx
      exact sharpenScores_entry_nonneg s
    have habs : ((scores.map f).map (fun x => |x|)).sum = (scores.map f).sum :=
      sum_map_abs_of_nonneg _ hnonneg
    have hpos : 0 < (scores.map f).sum := by
      have hmem : f s0 ∈ scores.map f := List.mem_map.mpr ⟨s0, hs0mem, rfl⟩
      have hfs0 : 0 < f s0 := by
        rw [hf]
        simp only
        rw [if_neg hs0pos.ne']
        simp only [sharpenAlpha, sharpenBeta]
        have := Real.exp_pos (30 * s0)
        linarith
      calc (0:ℝ) < f s0 := hfs0
        _ ≤ (scores.map f).sum := List.single_le_sum hnonneg _ hmem
    unfold l1Normalize
    rw [if_neg (by rw [habs]; exact hpos.ne')]
    rw [habs, sum_map_div, div_self hpos.ne']
  · intro hall x hx
    have hle : ∀ s ∈ scores, s ≤ 0 := fun s hs => (hall s hs).le
    unfold normalizeEventScores sharpenScores at hx
    rw [if_pos hle] at hx
    have habs : (scores.map (fun x => |x|)).sum = 0 := by
      apply List.sum_eq_zero
      intro y hy
      obtain ⟨s, hs, rfl⟩ := List.mem_map.mp hy
      simp [hall s hs]
    unfold l1Normalize at hx
    rw [if_pos habs] at hx
    exact hall x hx

/-- Witness for C6 at concrete inputs: the vector `[0, 1/2]` has a positive
entry and its normalization sums to `1`; the all-zero vector `[0, 0]`
normalizes to all zeros. -/
theorem normalize_event_scores_correct_witness :
    (normalizeEventScores [0, 1 / 2]).sum = 1
      ∧ ∀ x ∈ normalizeEventScores [(0 : ℝ), 0], x = 0 := by
  constructor
  · exact (normalize_event_scores_correct [0, 1 / 2]).1
      ⟨1 / 2, by norm_num, by norm_num⟩
  · exact (normalize_event_scores_correct [0, 0]).2 (by
      intro s hs
      rcases List.mem_cons.mp hs with rfl | hs'
      · rfl
      · rcases List.mem_cons.mp hs' with rfl | hs''
        · rfl
        · cases hs'')

/-! ## Claim C10 — `QueryMiners.run` edge-case frame conditions -/

/-- Claim C10: `QueryMiners.run` is a no-op at its observable boundary in
two edge cases — with no events to predict it returns before syncing the
metagraph, querying any peer, or writing any prediction; with events but no
serving axon it syncs the metagraph but queries no peer and writes no
prediction. -/
theorem query_miners_run_noop (events : List EventRow) (uids : List ℕ)
    (axons : ℕ → Option AxonData) (blockHeight : ℕ) (nowMinutes : ℤ)
    (hotkeyOf : ℕ → String) (reply : ℕ → List (String × Option ℝ)) :
    (events.isEmpty = true →
        queryMinersRun events uids axons blockHeight nowMinutes hotkeyOf reply
          = ⟨false, [], []⟩)
      ∧ (events.isEmpty = false → (getAxons uids axons).isEmpty = true →
        queryMinersRun events uids axons blockHeight nowMinutes hotkeyOf reply
          = ⟨true, [], []⟩) := by
  constructor
  · intro h
    unfold queryMinersRun
    rw [if_pos h]
  · intro h hax
    unfold queryMinersRun
    rw [if_neg (by simp [h]), if_pos hax]

/-- Witness for C10 at concrete inputs: an empty event list returns without
syncing; one event with no serving axon syncs but queries and writes
nothing. -/
theorem query_miners_run_noop_witness :
    queryMinersRun [] [0] (fun _ => none) 1 0 (fun _ => "hk") (fun _ => [])
        = ⟨false, [], []⟩
      ∧ queryMinersRun [⟨"e1", "ifgames"⟩] [0] (fun _ => none) 1 0
          (fun _ => "hk") (fun _ => [])
        = ⟨true, [], []⟩ := by
  constructor
  · exact (query_miners_run_noop [] [0] (fun _ => none) 1 0 (fun _ => "hk")
      (fun _ => [])).1 rfl
  · exact (query_miners_run_noop [⟨"e1", "ifgames"⟩] [0] (fun _ => none) 1 0
      (fun _ => "hk") (fun _ => [])).2 rfl rfl

/-! ## Claim C7 — shape of one dispatch round's stored submissions -/

lemma countP_flatMap {α β : Type} (l : List α) (f : α → List β) (p : β → Bool) :
    (l.flatMap f).countP p = (l.map (fun a => (f a).countP p)).sum := by
  induction l with
  | nil => simp
  | cons a t ih => simp [List.countP_append, ih]

/-- In a reply whose keys are distinct, an entry with a `none` probability is
counted exactly once by the no-answer predicate for its key. -/
lemma countP_reply_eq_one (es : List (String × Option ℝ)) (p : String × Option ℝ)
    (hnd : (es.map Prod.fst).Nodup) (hmem : p ∈ es) (hna : p.2 = none) :
    es.countP (fun e => e.1 == p.1 && e.2.isNone) = 1 := by
  induction es with
  | nil => cases hmem
  | cons q t ih =>
    rw [List.map_cons, List.nodup_cons] at hnd
    rcases List.mem_cons.mp hmem with rfl | hmemt
    · have htail : t.countP (fun e => e.1 == p.1 && e.2.isNone) = 0 := by
        rw [List.countP_eq_zero]
        intro e he
        have : e.1 ≠ p.1 := by
          intro hcontra
          exact hnd.1 (hcontra ▸ List.mem_map_of_mem Prod.fst he)
        simp [this]
      rw [List.countP_cons, htail]
      simp [hna]
    · have hq : q.1 ≠ p.1 := by
        intro hcontra
        exact hnd.1 (hcontra ▸ List.mem_map_of_mem Prod.fst hmemt)
      rw [List.countP_cons, ih hnd.2 hmemt]
      simp [hq]

/-- Rows parsed from a different uid never match the per-peer predicate. -/
lemma parse_countP_other_uid (hotkeyOf : ℕ → String) (blockHeight : ℕ)
    (intervalStart : ℤ) (uid targetUid : ℕ) (es : List (String × Option ℝ))
    (key : String) (h : uid ≠ targetUid) :
    (parseNeuronPredictions hotkeyOf blockHeight intervalStart uid es).countP
      (fun row => row.minerUid == targetUid && row.uniqueEventId == key
        && row.answer.isNone) = 0 := by
  rw [List.countP_eq_zero]
  intro row hrow
  obtain ⟨e, _, rfl⟩ := List.mem_map.mp hrow
  simp [h]

/-- Rows parsed from the target uid match the per-peer predicate exactly as
often as the reply's entries match the per-entry predicate. -/
lemma parse_countP_same_uid (hotkeyOf : ℕ → String) (blockHeight : ℕ)
    (intervalStart : ℤ) (uid : ℕ) (es : List (String × Option ℝ)) (key : String) :
    (parseNeuronPredictions hotkeyOf blockHeight intervalStart uid es).countP
        (fun row => row.minerUid == uid && row.uniqueEventId == key
          && row.answer.isNone)
      = es.countP (fun e => e.1 == key && e.2.isNone) := by
  unfold parseNeuronPredictions
  rw [List.countP_map]
  congr 1
  funext e
  simp

/-- Summing the per-response match counts over a round with distinct uids:
exactly the target peer's response contributes, and it contributes once. -/
lemma sum_parse_counts_eq_one (hotkeyOf : ℕ → String) (blockHeight : ℕ)
    (intervalStart : ℤ) (key : String)
    (responses : List (ℕ × List (String × Option ℝ)))
    (huids : (responses.map Prod.fst).Nodup)
    (r : ℕ × List (String × Option ℝ)) (hr : r ∈ responses)
    (hcount : r.2.countP (fun e => e.1 == key && e.2.isNone) = 1) :
    (responses.map (fun q =>
        (parseNeuronPredictions hotkeyOf blockHeight intervalStart q.1 q.2).countP
          (fun row => row.minerUid == r.1 && row.uniqueEventId == key
            && row.answer.isNone))).sum = 1 := by
  induction responses with
  | nil => cases hr
  | cons q t ih =>
    rw [List.map_cons, List.nodup_cons] at huids
    rcases List.mem_cons.mp hr with rfl | hrt
    · have htail : (t.map (fun q =>
          (parseNeuronPredictions hotkeyOf blockHeight intervalStart q.1 q.2).countP
            (fun row => row.minerUid == r.1 && row.uniqueEventId == key
              && row.answer.isNone))).sum = 0 := by
        apply List.sum_eq_zero
        intro x hx
        obtain ⟨q', hq', rfl⟩ := List.mem_map.mp hx
        apply parse_countP_other_uid
        intro hcontra
        exact huids.1 (hcontra ▸ List.mem_map_of_mem Prod.fst hq')
      rw [List.map_cons, List.sum_cons, htail, parse_countP_same_uid, hcount]
    · have hq : q.1 ≠ r.1 := by
        intro hcontra
        exact huids.1 (hcontra ▸ List.mem_map_of_mem Prod.fst hrt)
      rw [List.map_cons, List.sum_cons,
        parse_countP_other_uid _ _ _ _ _ _ _ hq, ih huids.2 hrt]

/-- Claim C7: one dispatch round with distinct responding uids, in which each
responding peer's reply lists exactly the dispatched synapse's events (the
transport echoes the synapse, with unaddressed events keeping their `None`
probability), stores exactly `N × M` submission records, and for every event
a responding peer did not address there is exactly one stored record for
that peer and event with an absent answer — never an omitted record. -/
theorem dispatch_round_predictions (hotkeyOf : ℕ → String) (blockHeight : ℕ)
    (intervalStart : ℤ) (synapseEvents : List (String × Option ℝ))
    (responses : List (ℕ × List (String × Option ℝ)))
    (hkeys : (synapseEvents.map Prod.fst).Nodup)
    (huids : (responses.map Prod.fst).Nodup)
    (hresp : ∀ r ∈ responses, r.2.map Prod.fst = synapseEvents.map Prod.fst) :
    (storePredictions hotkeyOf blockHeight intervalStart responses).length
        = responses.length * synapseEvents.length
      ∧ ∀ r ∈ responses, ∀ p ∈ r.2, p.2 = none →
        (storePredictions hotkeyOf blockHeight intervalStart responses).countP
          (fun row => row.minerUid == r.1 && row.uniqueEventId == p.1
            && row.answer.isNone) = 1 := by
  constructor
  · unfold storePredictions
    induction responses with
    | nil => simp
    | cons q t ih =>
      rw [List.map_cons, List.nodup_cons] at huids
      have hlen : q.2.length = synapseEvents.length := by
        have h := hresp q (List.mem_cons_self q t)
        calc q.2.length = (q.2.map Prod.fst).length := (List.length_map _ _).symm
          _ = (synapseEvents.map Prod.fst).length := by rw [h]
          _ = synapseEvents.length := List.length_map _ _
      rw [List.flatMap_cons, List.length_append]
      rw [ih huids.2 (fun r hr => hresp r (List.mem_cons_of_mem q hr))]
      have : (parseNeuronPredictions hotkeyOf blockHeight intervalStart q.1 q.2).length
          = q.2.length := List.length_map _ _
      rw [this, hlen, List.length_cons]
      ring
  · intro r hr p hp hna
    have hnd : (r.2.map Prod.fst).Nodup := by
      rw [hresp r hr]
      exact hkeys
    have hcount : r.2.countP (fun e => e.1 == p.1 && e.2.isNone) = 1 :=
      countP_reply_eq_one r.2 p hnd hp hna
    unfold storePredictions
    rw [countP_flatMap]
    exact sum_parse_counts_eq_one hotkeyOf blockHeight intervalStart p.1
      responses huids r hr hcount

/-- Witness for C7 at concrete inputs: one responding peer (uid 3) and a
two-event synapse; the round stores `1 × 2` records, and the unaddressed
event `"b"` has exactly one stored no-answer record for uid 3. -/
theorem dispatch_round_predictions_witness :
    (storePredictions (fun _ => "hk") 7 240
          [(3, [("a", some ((1:ℝ) / 2)), ("b", none)])]).length = 1 * 2
      ∧ (storePredictions (fun _ => "hk") 7 240
          [(3, [("a", some ((1:ℝ) / 2)), ("b", none)])]).countP
          (fun row => row.minerUid == 3 && row.uniqueEventId == "b"
            && row.answer.isNone) = 1 := by
  have h := dispatch_round_predictions (fun _ => "hk") 7 240
    [("a", some ((1:ℝ) / 2)), ("b", none)]
    [(3, [("a", some ((1:ℝ) / 2)), ("b", none)])]
    (by simp) (by simp)
    (by intro r hr; rcases List.mem_cons.mp hr with rfl | h0
        · rfl
        · cases h0)
  refine ⟨by simpa using h.1, ?_⟩
  exact h.2 (3, [("a", some ((1:ℝ) / 2)), ("b", none)])
    (List.mem_cons_self _ _) ("b", none) (by simp) rfl
